import Mathlib

/-!
# Verification of the pixel-art downscaling pipeline

Shallow embedding of `scripts/downscale_pixel_art.py`: content-bounds
detection, background estimation, run-length pixel-size inference,
grid-aligned center sampling and tolerance-based palette merging.

Conventions used throughout the embedding:
* Python integers are modelled by `Int` (or `Nat` where the source value is
  provably non-negative, e.g. 8-bit channels and list indices).
* Python floats appearing in this script are dyadic or small rationals whose
  arithmetic is exact in double precision on all inputs of interest, so they
  are modelled by exact arithmetic: `int((i + 0.5) * p)` becomes truncating
  integer division by 2, and `math.sqrt(d) <= t` becomes
  `0 ≤ t ∧ d ≤ t * t` over `ℚ` (equivalent over the reals for `d ≥ 0`).
* Python `sorted` is modelled by `List.insertionSort (· ≤ ·)`, which produces
  the same (unique, for a total order on numbers) sorted permutation.
* Raised exceptions become `Except Err` values, keyed by the error kinds of
  the specification.
-/

/-- An RGBA color: 4 channels, 8-bit in every image produced by PIL's RGBA
mode (the embedding uses `Nat` channels; 8-bit validity `≤ 255` is an
explicit hypothesis where a proof needs it). -/
structure Color where
  r : Nat
  g : Nat
  b : Nat
  a : Nat
deriving DecidableEq, Repr

/-- Axis-aligned half-open rectangle `(left, top, right, bottom)`. -/
structure BBox where
  left : Int
  top : Int
  right : Int
  bottom : Int
deriving DecidableEq, Repr

/-- An image: row-major pixel data, addressed by `(x, y)` with
`x ∈ [0, width)`, `y ∈ [0, height)`. `data.length = width * height` is an
explicit hypothesis where a proof needs it. -/
structure Img where
  width : Nat
  height : Nat
  data : List Color
deriving DecidableEq, Repr

/-- Error kinds of the pipeline (the Python script raises `ValueError`s whose
messages the specification classifies into these kinds). -/
inductive Err where
  | emptyContent
  | gridOverflow
  | invalidParameter
deriving DecidableEq, Repr

/-- Pixel lookup `pixels[x, y]`. In the embedded code paths every access is
in bounds; out-of-bounds coordinates return transparent black. -/
def Img.pix (img : Img) (x y : Int) : Color :=
  if 0 ≤ x ∧ x < (img.width : Int) ∧ 0 ≤ y ∧ y < (img.height : Int) then
    img.data.getD (y.toNat * img.width + x.toNat) ⟨0, 0, 0, 0⟩
  else ⟨0, 0, 0, 0⟩

/-- `_color_close(a, b, threshold)`: cheap closeness check in RGB space,
`abs(a[i] - b[i]) <= threshold` for each of R, G, B. -/
def colorClose (a b : Color) (threshold : Int) : Bool :=
  |(a.r : Int) - (b.r : Int)| ≤ threshold ∧
  |(a.g : Int) - (b.g : Int)| ≤ threshold ∧
  |(a.b : Int) - (b.b : Int)| ≤ threshold

/-- `expand_to_square(bbox, image_size)`: expand a bounding box to the
smallest square anchored at its top-left, sliding back only on overflow. -/
def expandToSquare (bbox : BBox) (imageSize : Int × Int) : BBox :=
  let width := bbox.right - bbox.left
  let height := bbox.bottom - bbox.top
  let side := max width height
  let imgW := imageSize.1
  let imgH := imageSize.2
  let newLeft := if bbox.left + side > imgW then max 0 (imgW - side) else bbox.left
  let newTop := if bbox.top + side > imgH then max 0 (imgH - side) else bbox.top
  ⟨newLeft, newTop, newLeft + side, newTop + side⟩

/-- `align_sample_region(square, target_size, image_size, pixel_size)`:
check that a `pixel_size * target_size` sampling grid anchored at the
square's top-left fits the image, and return the grid region. -/
def alignSampleRegion (square : BBox) (targetSize : Int) (imageSize : Int × Int)
    (pixelSize : Int) : Except Err (BBox × Int) :=
  let imgW := imageSize.1
  let imgH := imageSize.2
  if pixelSize ≤ 0 then .error .invalidParameter
  else
    let sampleSize := pixelSize * targetSize
    if sampleSize > imgW ∨ sampleSize > imgH then .error .gridOverflow
    else if square.left + sampleSize > imgW ∨ square.top + sampleSize > imgH then
      .error .gridOverflow
    else
      .ok (⟨square.left, square.top, square.left + sampleSize,
            square.top + sampleSize⟩, pixelSize)

/-- `make_background_transparent(image, background_color, threshold)`:
zero the alpha of every non-transparent pixel close to the background color;
the source copies the image and builds a fresh data list, modelled by `map`. -/
def makeBackgroundTransparent (img : Img) (backgroundColor : Color)
    (threshold : Int) : Except Err Img :=
  if threshold < 0 then .error .invalidParameter
  else
    .ok { img with
          data := img.data.map (fun pixel =>
            if pixel.a = 0 then pixel
            else if colorClose pixel backgroundColor threshold then
              ⟨pixel.r, pixel.g, pixel.b, 0⟩
            else pixel) }

/-- Border pixels of the image, in the collection order of
`detect_background_color`: for each `x` the top and bottom pixel, then for
each `y` the left and right pixel. -/
def borderCandidates (img : Img) : List Color :=
  ((List.range img.width).flatMap (fun x : Nat =>
      [img.pix (Int.ofNat x) 0, img.pix (Int.ofNat x) ((img.height : Int) - 1)])) ++
  ((List.range img.height).flatMap (fun y : Nat =>
      [img.pix 0 (Int.ofNat y), img.pix ((img.width : Int) - 1) (Int.ofNat y)]))

/-- The median block of `detect_background_color`: per-channel median of
the candidate colors (empty candidates give transparent black).  `sorted`
is modelled by `List.insertionSort (· ≤ ·)`. -/
def medianColor (cands : List Color) : Color :=
  if cands.isEmpty then ⟨0, 0, 0, 0⟩
  else
    let rs := List.insertionSort (· ≤ ·) (cands.map (·.r))
    let gs := List.insertionSort (· ≤ ·) (cands.map (·.g))
    let bs := List.insertionSort (· ≤ ·) (cands.map (·.b))
    let mid := cands.length / 2
    if cands.length % 2 = 0 then
      ⟨(rs.getD (mid - 1) 0 + rs.getD mid 0) / 2,
       (gs.getD (mid - 1) 0 + gs.getD mid 0) / 2,
       (bs.getD (mid - 1) 0 + bs.getD mid 0) / 2, 255⟩
    else ⟨rs.getD mid 0, gs.getD mid 0, bs.getD mid 0, 255⟩

/-- `detect_background_color(image)`: median border color, preferring
opaque (alpha ≥ 250) border samples when any exist.  The Python guard
`len(c) >= 4` always holds for RGBA images, whose pixels are 4-tuples. -/
def detectBackgroundColor (img : Img) : Color :=
  let bgCandidates := borderCandidates img
  let opaqueCandidates := bgCandidates.filter (fun c => 250 ≤ c.a)
  medianColor (if opaqueCandidates.isEmpty then bgCandidates else opaqueCandidates)

/-- Modelled from the spec: the image collaborator's
`Image.alphaBoundingBox()` (PIL `getbbox` on the alpha channel), the tight
bounding box of pixels with non-zero alpha, `None` when there are none. -/
def alphaPoints (img : Img) : List (Nat × Nat) :=
  (List.range img.height).flatMap (fun y : Nat =>
    (List.range img.width).filterMap (fun x : Nat =>
      if (img.pix (Int.ofNat x) (Int.ofNat y)).a ≠ 0 then some (x, y) else none))

def alphaBbox (img : Img) : Option BBox :=
  match alphaPoints img with
  | [] => none
  | p :: rest =>
    some ⟨((rest.foldl (fun m q => min m q.1) p.1 : Nat) : Int),
          ((rest.foldl (fun m q => min m q.2) p.2 : Nat) : Int),
          ((rest.foldl (fun m q => max m q.1) p.1 : Nat) : Int) + 1,
          ((rest.foldl (fun m q => max m q.2) p.2 : Nat) : Int) + 1⟩

/-- The min/max tracking loop of `detect_content_bbox`'s background-color
mode: fold over `enumerate(image.getdata())` updating
`(min_x, min_y, max_x, max_y)` from `(width, height, -1, -1)`. -/
def contentScan (img : Img) (bg : Color) (threshold : Int) :
    Int × Int × Int × Int :=
  img.data.enum.foldl (fun acc ip =>
    if ¬ colorClose ip.2 bg threshold then
      let x : Int := (ip.1 % img.width : Nat)
      let y : Int := (ip.1 / img.width : Nat)
      (if x < acc.1 then x else acc.1,
       if y < acc.2.1 then y else acc.2.1,
       if x > acc.2.2.1 then x else acc.2.2.1,
       if y > acc.2.2.2 then y else acc.2.2.2)
    else acc)
    ((img.width : Int), (img.height : Int), -1, -1)

/-- `detect_content_bbox(image, background_threshold)`: alpha-aware when the
image has genuine transparency, otherwise scan against the estimated
background color.  `getextrema` of the alpha channel is modelled by folds
(exact for non-empty data with 8-bit alpha). -/
def detectContentBbox (img : Img) (backgroundThreshold : Int) :
    Except Err BBox :=
  let alphas := img.data.map (·.a)
  let alphaMax := alphas.foldr max 0
  let alphaMin := alphas.foldr min 255
  if alphaMax = 0 then .error .emptyContent
  else if alphaMin < 255 then
    match alphaBbox img with
    | none => .error .emptyContent
    | some bbox => .ok bbox
  else
    let bg := detectBackgroundColor img
    let scan := contentScan img bg backgroundThreshold
    if scan.2.2.1 = -1 then .error .emptyContent
    else .ok ⟨scan.1, scan.2.1, scan.2.2.1 + 1, scan.2.2.2 + 1⟩

/-- `sample_centers(image, region, target_size, pixel_size)`: the source
coordinate `int((index + 0.5) * pixel_size)` is exact dyadic float
arithmetic, i.e. `(2 * index + 1) * pixel_size` divided by 2 truncating
toward zero (`Int.tdiv`); the coordinate is then clamped to
`[0, width - 1] × [0, height - 1]` before lookup. -/
def sampleCenters (img : Img) (region : BBox) (targetSize pixelSize : Int) :
    List Color :=
  (List.range targetSize.toNat).flatMap (fun yIndex : Nat =>
    (List.range targetSize.toNat).map (fun xIndex : Nat =>
      let x := ((2 * (xIndex : Int) + 1) * pixelSize).tdiv 2 + region.left
      let y := ((2 * (yIndex : Int) + 1) * pixelSize).tdiv 2 + region.top
      let xc := min (max x 0) ((img.width : Int) - 1)
      let yc := min (max y 0) ((img.height : Int) - 1)
      img.pix xc yc))

/-- `normalize_rgb(color)`: RGB channels scaled to `[0, 1]`, dropping alpha.
The rationals `r/255, g/255, b/255` are represented exactly by their integer
numerators over the fixed denominator 255. -/
def normalizeRgb (c : Color) : Int × Int × Int := ((c.r : Int), (c.g : Int), (c.b : Int))

/-- Squared Euclidean distance between two normalized colors, times `255²`
(the numerator of `color_distance(a, b)²` over the denominator `255²`). -/
def colorDistanceSqNum (a b : Int × Int × Int) : Int :=
  (a.1 - b.1) ^ 2 + (a.2.1 - b.2.1) ^ 2 + (a.2.2 - b.2.2) ^ 2

/-- `color_distance(a, b) <= tolerance` evaluated exactly: for `d ≥ 0`,
`math.sqrt(d) <= t` iff `0 ≤ t` and `d ≤ t²`; with `d = dNum/255²` and
`t = t.num/t.den` this is the integer comparison below
(`distanceLe_iff_sqrt_le` proves the equivalence with the real-number
formulation). -/
def distanceLe (a b : Int × Int × Int) (t : ℚ) : Bool :=
  decide (0 ≤ t.num ∧
    colorDistanceSqNum a b * (t.den : Int) ^ 2 ≤ t.num ^ 2 * 255 ^ 2)

/-- The loop of `merge_palette`: first-match clustering against an
append-only palette of `(normalized, representative)` pairs. -/
def mergeGo (palette : List ((Int × Int × Int) × Color)) (tolerance : ℚ) :
    List Color → List Color
  | [] => []
  | color :: rest =>
    let normalized := normalizeRgb color
    match palette.find? (fun entry => distanceLe normalized entry.1 tolerance) with
    | some entry => entry.2 :: mergeGo palette tolerance rest
    | none => color :: mergeGo (palette ++ [(normalized, color)]) tolerance rest

/-- `merge_palette(colors, tolerance)`. -/
def mergePalette (colors : List Color) (tolerance : ℚ) : List Color :=
  mergeGo [] tolerance colors

/-- The run-length filter of `infer_pixel_size`: keep runs in
`[max(1, expected_size // 4), expected_size * 4]`. -/
def filterRuns (runs : List Nat) (expectedSize : Nat) : List Nat :=
  runs.filter (fun r => max 1 (expectedSize / 4) ≤ r ∧ r ≤ expectedSize * 4)

/-- The sort key of the histogram maximum in `infer_pixel_size`:
`(count, -abs(value - expected_size), -value)`, compared lexicographically
as Python compares tuples. -/
def runKey (filtered : List Nat) (expectedSize value : Nat) : Nat × Int × Int :=
  (filtered.count value,
   -(((value : Int) - (expectedSize : Int)).natAbs : Int),
   -(value : Int))

/-- Strict lexicographic comparison of sort keys (Python tuple `<`). -/
def keyLt (a b : Nat × Int × Int) : Prop :=
  a.1 < b.1 ∨ (a.1 = b.1 ∧ (a.2.1 < b.2.1 ∨ (a.2.1 = b.2.1 ∧ a.2.2 < b.2.2)))

instance (a b : Nat × Int × Int) : Decidable (keyLt a b) := by
  unfold keyLt; infer_instance

/-- The dominant histogram value of `infer_pixel_size`:
`max(histogram.items(), key=...)` keeps the current maximum unless a later
item's key is strictly greater.  The histogram's keys are the distinct
values of `filtered` with their counts; since the third key component is
injective in the value, the maximum is independent of iteration order, so
the fold below (over `List.dedup`) computes exactly the Python maximum. -/
def pickDominant (filtered : List Nat) (expectedSize : Nat) : Nat :=
  match filtered.dedup with
  | [] => expectedSize
  | k :: ks => ks.foldl (fun best value =>
      if keyLt (runKey filtered expectedSize best) (runKey filtered expectedSize value)
      then value else best) k

/-- The final clamp of `infer_pixel_size`:
`min(max(1, inferred), max(1, min(width, height)))`. -/
def clampInferred (inferred : Nat) (width height : Int) : Int :=
  min (max 1 (inferred : Int)) (max 1 (min width height))

/-- `downscale(...)` without its I/O boundary: returns the pixel list written
to the `target_size × target_size` output image. -/
def downscalePure (img : Img) (targetSize pixelSize : Int) (tolerance : Option ℚ)
    (backgroundThreshold : Int) : Except Err (List Color) :=
  let alphas := img.data.map (·.a)
  let alphaMax := alphas.foldr max 0
  let alphaMin := alphas.foldr min 255
  let bgOpt :=
    if alphaMin = 255 ∧ alphaMax = 255 then some (detectBackgroundColor img)
    else none
  match detectContentBbox img backgroundThreshold with
  | .error e => .error e
  | .ok bbox =>
    let square := expandToSquare bbox ((img.width : Int), (img.height : Int))
    match alignSampleRegion square targetSize ((img.width : Int), (img.height : Int))
        pixelSize with
    | .error e => .error e
    | .ok (sampleRegion, alignedPixelSize) =>
      let centers := sampleCenters img sampleRegion targetSize alignedPixelSize
      let outputPixels :=
        match tolerance with
        | none => centers
        | some t => mergePalette centers t
      let outputPixels :=
        match bgOpt with
        | none => outputPixels
        | some bg => outputPixels.map (fun p =>
            if p.a ≠ 0 ∧ colorClose p bg backgroundThreshold then
              ⟨p.r, p.g, p.b, 0⟩
            else p)
      .ok outputPixels

/-! ## Theorems -/

/-- C2 (counterexample): a valid bounding box inside a 4×10 image whose
expanded square is NOT contained in the image: `expand_to_square` of the
full-image box `(0, 0, 4, 10)` is `(0, 0, 10, 10)`, whose right edge 10
exceeds the image width 4.  This refutes the claim that the output square is
always fully contained within `[0, W) × [0, H)`. -/
theorem expandToSquare_containment_counterexample :
    ((0 : Int) ≤ 0 ∧ (0 : Int) < 4 ∧ (4 : Int) ≤ 4 ∧
     (0 : Int) < 10 ∧ (10 : Int) ≤ 10) ∧
    expandToSquare ⟨0, 0, 4, 10⟩ (4, 10) = ⟨0, 0, 10, 10⟩ ∧
    ¬ (expandToSquare ⟨0, 0, 4, 10⟩ (4, 10)).right ≤ 4 := by decide

/-- C2 (amended): `expand_to_square` always returns a square of side
`max(bbox width, bbox height)`; it is fully contained within
`[0, W) × [0, H)` provided that side fits both image dimensions
(`side ≤ min W H`), which the original claim omitted. -/
theorem expandToSquare_square_contained (b : BBox) (W H : Int)
    (hl : 0 ≤ b.left) (hlr : b.left < b.right)
    (ht : 0 ≤ b.top) (htb : b.top < b.bottom)
    (hr : b.right ≤ W) (hb : b.bottom ≤ H)
    (hside : max (b.right - b.left) (b.bottom - b.top) ≤ min W H) :
    (expandToSquare b (W, H)).right - (expandToSquare b (W, H)).left =
      max (b.right - b.left) (b.bottom - b.top) ∧
    (expandToSquare b (W, H)).bottom - (expandToSquare b (W, H)).top =
      max (b.right - b.left) (b.bottom - b.top) ∧
    0 ≤ (expandToSquare b (W, H)).left ∧ 0 ≤ (expandToSquare b (W, H)).top ∧
    (expandToSquare b (W, H)).right ≤ W ∧ (expandToSquare b (W, H)).bottom ≤ H := by
  simp only [expandToSquare]
  split_ifs <;> simp_all

/-- Witness for C2 (amended) at the box `(1, 1, 3, 2)` in a 4×4 image. -/
theorem expandToSquare_square_contained_witness :
    (expandToSquare ⟨1, 1, 3, 2⟩ (4, 4)).right - (expandToSquare ⟨1, 1, 3, 2⟩ (4, 4)).left =
      max ((3 : Int) - 1) (2 - 1) ∧
    (expandToSquare ⟨1, 1, 3, 2⟩ (4, 4)).bottom - (expandToSquare ⟨1, 1, 3, 2⟩ (4, 4)).top =
      max ((3 : Int) - 1) (2 - 1) ∧
    0 ≤ (expandToSquare ⟨1, 1, 3, 2⟩ (4, 4)).left ∧
    0 ≤ (expandToSquare ⟨1, 1, 3, 2⟩ (4, 4)).top ∧
    (expandToSquare ⟨1, 1, 3, 2⟩ (4, 4)).right ≤ 4 ∧
    (expandToSquare ⟨1, 1, 3, 2⟩ (4, 4)).bottom ≤ 4 :=
  expandToSquare_square_contained ⟨1, 1, 3, 2⟩ 4 4 (by decide) (by decide) (by decide)
    (by decide) (by decide) (by decide) (by decide)

/-- C6 (counterexample): a background threshold of 0 is non-positive, yet
`make_background_transparent` does not abort (its guard rejects only
negative thresholds), refuting the claim that a non-positive background
threshold causes the invocation to abort with an error. -/
theorem invalidParameter_counterexample :
    makeBackgroundTransparent ⟨1, 1, [⟨0, 0, 0, 255⟩]⟩ ⟨10, 10, 10, 255⟩ 0 =
      .ok ⟨1, 1, [⟨0, 0, 0, 255⟩]⟩ := rfl

/-- C6 (amended): the pipeline aborts with `InvalidParameterError` for a
non-positive pixel size (in `align_sample_region`) and for a strictly
negative background threshold (in `make_background_transparent`); a zero
background threshold is accepted, and a target size ≤ 0 is not rejected by
`align_sample_region` (for a positive pixel size and a square anchored
inside the image it succeeds). -/
theorem invalidParameter_validation (square : BBox) (targetSize W H pixelSize : Int)
    (img : Img) (bg : Color) (threshold : Int) :
    (pixelSize ≤ 0 →
      alignSampleRegion square targetSize (W, H) pixelSize = .error .invalidParameter) ∧
    (threshold < 0 →
      makeBackgroundTransparent img bg threshold = .error .invalidParameter) ∧
    (0 ≤ threshold → (makeBackgroundTransparent img bg threshold).isOk = true) ∧
    (0 < pixelSize → targetSize ≤ 0 → 0 ≤ square.left → 0 ≤ square.top →
      square.left ≤ W → square.top ≤ H →
      (alignSampleRegion square targetSize (W, H) pixelSize).isOk = true) := by
  refine ⟨fun h => ?_, fun h => ?_, fun h => ?_, fun hP hN hsl hst hlW htH => ?_⟩
  · simp only [alignSampleRegion]
    rw [if_pos h]
  · simp only [makeBackgroundTransparent]
    rw [if_pos h]
  · simp only [makeBackgroundTransparent]
    rw [if_neg (by omega)]
    rfl
  · have hs : pixelSize * targetSize ≤ 0 :=
      mul_nonpos_iff.mpr (Or.inl ⟨hP.le, hN⟩)
    simp only [alignSampleRegion]
    rw [if_neg (by omega), if_neg (by omega), if_neg (by omega)]
    rfl

/-- Witness for C6 (amended) at concrete parameters. -/
theorem invalidParameter_validation_witness :
    alignSampleRegion ⟨0, 0, 1, 1⟩ 3 (4, 4) 0 = .error .invalidParameter ∧
    makeBackgroundTransparent ⟨1, 1, [⟨0, 0, 0, 255⟩]⟩ ⟨0, 0, 0, 255⟩ (-1) =
      .error .invalidParameter ∧
    (makeBackgroundTransparent ⟨1, 1, [⟨0, 0, 0, 255⟩]⟩ ⟨0, 0, 0, 255⟩ 0).isOk = true ∧
    (alignSampleRegion ⟨0, 0, 1, 1⟩ (-2) (4, 4) 1).isOk = true :=
  ⟨(invalidParameter_validation ⟨0, 0, 1, 1⟩ 3 4 4 0 ⟨1, 1, [⟨0, 0, 0, 255⟩]⟩
      ⟨0, 0, 0, 255⟩ (-1)).1 (by decide),
   (invalidParameter_validation ⟨0, 0, 1, 1⟩ 3 4 4 0 ⟨1, 1, [⟨0, 0, 0, 255⟩]⟩
      ⟨0, 0, 0, 255⟩ (-1)).2.1 (by decide),
   (invalidParameter_validation ⟨0, 0, 1, 1⟩ 3 4 4 0 ⟨1, 1, [⟨0, 0, 0, 255⟩]⟩
      ⟨0, 0, 0, 255⟩ 0).2.2.1 (by decide),
   (invalidParameter_validation ⟨0, 0, 1, 1⟩ (-2) 4 4 1 ⟨1, 1, [⟨0, 0, 0, 255⟩]⟩
      ⟨0, 0, 0, 255⟩ 0).2.2.2 (by decide) (by decide) (by decide) (by decide)
      (by decide) (by decide)⟩

/-- C7 (confirmed): for a positive pixel size `P`, `align_sample_region`
raises `GridOverflowError` exactly when `P*N` exceeds an image dimension or
the square's anchor plus `P*N` exceeds the image bounds; otherwise it
returns the region `(left, top, left + P*N, top + P*N)` with `P`
unchanged. -/
theorem alignSampleRegion_gridOverflow_iff (square : BBox)
    (targetSize W H pixelSize : Int) (hP : 0 < pixelSize) :
    (alignSampleRegion square targetSize (W, H) pixelSize = .error .gridOverflow ↔
      pixelSize * targetSize > W ∨ pixelSize * targetSize > H ∨
      square.left + pixelSize * targetSize > W ∨
      square.top + pixelSize * targetSize > H) ∧
    (¬ (pixelSize * targetSize > W ∨ pixelSize * targetSize > H ∨
        square.left + pixelSize * targetSize > W ∨
        square.top + pixelSize * targetSize > H) →
      alignSampleRegion square targetSize (W, H) pixelSize =
        .ok (⟨square.left, square.top, square.left + pixelSize * targetSize,
              square.top + pixelSize * targetSize⟩, pixelSize)) := by
  simp only [alignSampleRegion]
  rw [if_neg (by omega)]
  constructor
  · split_ifs with h1 h2
    · simp only [true_iff]
      tauto
    · simp only [true_iff]
      tauto
    · simp only [reduceCtorEq, false_iff]
      tauto
  · intro h
    rw [if_neg (by tauto), if_neg (by tauto)]

theorem keyLt_irrefl (a : Nat × Int × Int) : ¬ keyLt a a := by
  obtain ⟨a1, a2, a3⟩ := a
  simp only [keyLt]
  omega

theorem keyLt_trans {a b c : Nat × Int × Int} (h1 : keyLt a b) (h2 : keyLt b c) :
    keyLt a c := by
  obtain ⟨a1, a2, a3⟩ := a
  obtain ⟨b1, b2, b3⟩ := b
  obtain ⟨c1, c2, c3⟩ := c
  simp only [keyLt] at h1 h2 ⊢
  omega

theorem keyLt_of_not_lt {a b : Nat × Int × Int} (h : ¬ keyLt a b) :
    keyLt b a ∨ b = a := by
  obtain ⟨a1, a2, a3⟩ := a
  obtain ⟨b1, b2, b3⟩ := b
  simp only [keyLt, Prod.mk.injEq] at h ⊢
  omega

/-- The accumulator of the histogram-maximum fold is never key-below any
element it has seen (so it is the key-maximal element). -/
theorem foldl_pick_not_lt (key : Nat → Nat × Int × Int) (ks : List Nat) :
    ∀ (k x : Nat), (x = k ∨ x ∈ ks) →
      ¬ keyLt (key (ks.foldl (fun best value =>
          if keyLt (key best) (key value) then value else best) k)) (key x) := by
  induction ks with
  | nil =>
    intro k x hx
    rcases hx with rfl | hx
    · exact keyLt_irrefl _
    · exact absurd hx (List.not_mem_nil x)
  | cons v ks ih =>
    intro k x hx
    simp only [List.foldl_cons]
    by_cases hkv : keyLt (key k) (key v)
    · rw [if_pos hkv]
      rcases hx with rfl | hx
      · intro hlt
        exact ih v v (Or.inl rfl) (keyLt_trans hlt hkv)
      · rcases List.mem_cons.mp hx with hxv | hx
        · exact ih v x (Or.inl hxv)
        · exact ih v x (Or.inr hx)
    · rw [if_neg hkv]
      rcases hx with rfl | hx
      · exact ih x x (Or.inl rfl)
      · rcases List.mem_cons.mp hx with hxv | hx
        · intro hlt
          rw [hxv] at hlt
          rcases keyLt_of_not_lt hkv with hvk | hvk
          · exact ih k k (Or.inl rfl) (keyLt_trans hlt hvk)
          · exact ih k k (Or.inl rfl) (hvk ▸ hlt)
        · exact ih k x (Or.inr hx)

/-- Unfolding equation for `pickDominant` on a non-empty deduplicated
histogram key list. -/
theorem pickDominant_cons (filtered : List Nat) (expectedSize k : Nat)
    (ks : List Nat) (h : filtered.dedup = k :: ks) :
    pickDominant filtered expectedSize = ks.foldl (fun best value =>
      if keyLt (runKey filtered expectedSize best) (runKey filtered expectedSize value)
      then value else best) k := by
  unfold pickDominant
  rw [h]

/-- C1 (counterexample): run lengths 4 and 6 with `expectedSize = 5` have
equal count and equal absolute distance to the expected size, but the
histogram maximum of `infer_pixel_size` returns the SMALLER value 4, not
the larger 6, refuting the claimed tie-break (the Python key is
`(count, -abs(value - expected), -value)`, and Python's `max` prefers the
larger key, hence the smaller run length). -/
theorem pickDominant_tie_counterexample :
    (filterRuns [4, 6] 5).count 4 = (filterRuns [4, 6] 5).count 6 ∧
    ((4 : Int) - 5).natAbs = ((6 : Int) - 5).natAbs ∧
    pickDominant (filterRuns [4, 6] 5) 5 = 4 ∧ (4 : Nat) ≠ 6 := by decide

/-- C1 (amended): in the selection over the filtered run-length histogram,
highest frequency wins, ties are broken by smallest absolute distance to
`expectedSize`, and remaining ties by the SMALLEST run-length value: of two
run lengths with equal count and equal distance, the larger is never the
one returned. -/
theorem pickDominant_tie_prefers_smaller (filtered : List Nat)
    (expectedSize a b : Nat) (ha : a ∈ filtered) (hab : a < b)
    (hcount : filtered.count a = filtered.count b)
    (hdist : ((a : Int) - (expectedSize : Int)).natAbs =
      ((b : Int) - (expectedSize : Int)).natAbs) :
    pickDominant filtered expectedSize ≠ b := by
  intro hpick
  have ha' : a ∈ filtered.dedup := List.mem_dedup.mpr ha
  have hkey : keyLt (runKey filtered expectedSize b) (runKey filtered expectedSize a) := by
    simp only [runKey, keyLt]
    omega
  rcases hdd : filtered.dedup with _ | ⟨k, ks⟩
  · rw [hdd] at ha'
    exact absurd ha' (List.not_mem_nil a)
  · rw [pickDominant_cons filtered expectedSize k ks hdd] at hpick
    rw [hdd] at ha'
    have hmax := foldl_pick_not_lt (runKey filtered expectedSize) ks k a
      (by rcases List.mem_cons.mp ha' with h | h
          · exact Or.inl h
          · exact Or.inr h)
    rw [hpick] at hmax
    exact hmax hkey

/-- Witness for C1 (amended): with runs `[4, 6]` and expected size 5, the
larger tied value 6 is not selected. -/
theorem pickDominant_tie_prefers_smaller_witness :
    pickDominant [4, 6] 5 ≠ 6 :=
  pickDominant_tie_prefers_smaller [4, 6] 5 4 6 (by decide) (by decide)
    (by decide) (by decide)

/-- Witness for C7 at a 2×2 grid inside a 4×4 image. -/
theorem alignSampleRegion_gridOverflow_iff_witness :
    ((alignSampleRegion ⟨0, 0, 2, 2⟩ 2 (4, 4) 1 = .error .gridOverflow ↔
      (1 : Int) * 2 > 4 ∨ (1 : Int) * 2 > 4 ∨
      (0 : Int) + 1 * 2 > 4 ∨ (0 : Int) + 1 * 2 > 4) ∧
     (¬ ((1 : Int) * 2 > 4 ∨ (1 : Int) * 2 > 4 ∨
         (0 : Int) + 1 * 2 > 4 ∨ (0 : Int) + 1 * 2 > 4) →
       alignSampleRegion ⟨0, 0, 2, 2⟩ 2 (4, 4) 1 =
         .ok (⟨0, 0, 0 + 1 * 2, 0 + 1 * 2⟩, 1))) :=
  alignSampleRegion_gridOverflow_iff ⟨0, 0, 2, 2⟩ 2 4 4 1 (by decide)

theorem sq_le_of_abs_le {x c : Int} (h1 : -c ≤ x) (h2 : x ≤ c) : x ^ 2 ≤ c ^ 2 := by
  nlinarith [mul_nonneg (by omega : (0 : Int) ≤ c - x) (by omega : (0 : Int) ≤ c + x)]

/-- The squared normalized distance between two 8-bit colors is at most 3
(numerator at most `3 * 255²`). -/
theorem colorDistanceSqNum_le_three (a b : Color)
    (ha : a.r ≤ 255 ∧ a.g ≤ 255 ∧ a.b ≤ 255)
    (hb : b.r ≤ 255 ∧ b.g ≤ 255 ∧ b.b ≤ 255) :
    colorDistanceSqNum (normalizeRgb a) (normalizeRgb b) ≤ 3 * 255 ^ 2 := by
  obtain ⟨har, hag, hab⟩ := ha
  obtain ⟨hbr, hbg, hbb⟩ := hb
  have h1 : ((a.r : Int) - (b.r : Int)) ^ 2 ≤ 255 ^ 2 :=
    sq_le_of_abs_le (by omega) (by omega)
  have h2 : ((a.g : Int) - (b.g : Int)) ^ 2 ≤ 255 ^ 2 :=
    sq_le_of_abs_le (by omega) (by omega)
  have h3 : ((a.b : Int) - (b.b : Int)) ^ 2 ≤ 255 ^ 2 :=
    sq_le_of_abs_le (by omega) (by omega)
  simp only [colorDistanceSqNum, normalizeRgb]
  omega

/-- Any two 8-bit colors are within a tolerance of at least √3. -/
theorem distanceLe_of_sqrt_three_le (a b : Color) (t : ℚ)
    (ha : a.r ≤ 255 ∧ a.g ≤ 255 ∧ a.b ≤ 255)
    (hb : b.r ≤ 255 ∧ b.g ≤ 255 ∧ b.b ≤ 255)
    (htn : 0 ≤ t.num) (ht : 3 * (t.den : Int) ^ 2 ≤ t.num ^ 2) :
    distanceLe (normalizeRgb a) (normalizeRgb b) t = true := by
  simp only [distanceLe, decide_eq_true_eq]
  refine ⟨htn, ?_⟩
  have hd := colorDistanceSqNum_le_three a b ha hb
  have hden : (0 : Int) ≤ (t.den : Int) ^ 2 := sq_nonneg _
  calc colorDistanceSqNum (normalizeRgb a) (normalizeRgb b) * (t.den : Int) ^ 2
      ≤ 3 * 255 ^ 2 * (t.den : Int) ^ 2 := by nlinarith
    _ = 3 * (t.den : Int) ^ 2 * 255 ^ 2 := by ring
    _ ≤ t.num ^ 2 * 255 ^ 2 := by nlinarith

/-- With a tolerance of at least √3 and a single-cluster palette, every
valid color merges into that cluster. -/
theorem mergeGo_singleton (c0 : Color) (t : ℚ)
    (hc0 : c0.r ≤ 255 ∧ c0.g ≤ 255 ∧ c0.b ≤ 255)
    (htn : 0 ≤ t.num) (ht : 3 * (t.den : Int) ^ 2 ≤ t.num ^ 2) :
    ∀ rest : List Color, (∀ c ∈ rest, c.r ≤ 255 ∧ c.g ≤ 255 ∧ c.b ≤ 255) →
      mergeGo [(normalizeRgb c0, c0)] t rest = List.replicate rest.length c0 := by
  intro rest
  induction rest with
  | nil => intro _; rfl
  | cons c rest ih =>
    intro hvalid
    have hfind : List.find? (fun entry => distanceLe (normalizeRgb c) entry.1 t)
        [(normalizeRgb c0, c0)] = some (normalizeRgb c0, c0) :=
      List.find?_cons_of_pos _
        (distanceLe_of_sqrt_three_le c c0 t (hvalid c (List.mem_cons_self c rest)) hc0 htn ht)
    simp only [mergeGo, hfind, List.length_cons, List.replicate_succ]
    exact congrArg _ (ih (fun x hx => hvalid x (List.mem_cons_of_mem c hx)))

/-- C4 (counterexample): with tolerance 1.0, black and white (normalized
Euclidean distance √3 > 1) do NOT merge: the output's second element is the
second input color, not the first, refuting the claim that tolerance 1.0
collapses every input into a single cluster. -/
theorem mergePalette_tolerance_one_counterexample :
    mergePalette [⟨0, 0, 0, 255⟩, ⟨255, 255, 255, 255⟩] 1 =
      [⟨0, 0, 0, 255⟩, ⟨255, 255, 255, 255⟩] ∧
    (⟨255, 255, 255, 255⟩ : Color) ≠ ⟨0, 0, 0, 255⟩ := by decide

/-- C4 (amended): `merge_palette` collapses every non-empty sequence of
8-bit colors into a single cluster — every output element equals the first
input color — once the tolerance is at least √3 (stated exactly on the
rational tolerance as `0 ≤ t.num ∧ 3·t.den² ≤ t.num²`, e.g. `t = 2`), the
maximum possible normalized RGB distance; tolerance 1.0 is not sufficient. -/
theorem mergePalette_collapse_sqrt3 (colors : List Color) (t : ℚ)
    (hne : colors ≠ [])
    (hvalid : ∀ c ∈ colors, c.r ≤ 255 ∧ c.g ≤ 255 ∧ c.b ≤ 255)
    (htn : 0 ≤ t.num) (ht : 3 * (t.den : Int) ^ 2 ≤ t.num ^ 2) :
    mergePalette colors t = List.replicate colors.length (colors.headD ⟨0, 0, 0, 0⟩) := by
  rcases colors with _ | ⟨c0, rest⟩
  · exact absurd rfl hne
  · have h0 : List.find? (fun entry => distanceLe (normalizeRgb c0) entry.1 t)
        ([] : List ((Int × Int × Int) × Color)) = none := rfl
    simp only [mergePalette, mergeGo, h0, List.headD_cons, List.length_cons,
      List.replicate_succ, List.nil_append]
    exact congrArg _ (mergeGo_singleton c0 t
      (hvalid c0 (List.mem_cons_self c0 rest)) htn ht rest
      (fun x hx => hvalid x (List.mem_cons_of_mem c0 hx)))

/-- Witness for C4 (amended): tolerance 2 ≥ √3 collapses black and white
into the first color. -/
theorem mergePalette_collapse_sqrt3_witness :
    mergePalette [⟨0, 0, 0, 255⟩, ⟨255, 255, 255, 255⟩] 2 =
      List.replicate 2 (Color.mk 0 0 0 255) :=
  mergePalette_collapse_sqrt3 [⟨0, 0, 0, 255⟩, ⟨255, 255, 255, 255⟩] 2
    (by decide) (by decide) (by decide) (by decide)

/-- With tolerance zero, two normalized colors compare close exactly when
their RGB triples coincide. -/
theorem distanceLe_zero_iff (a b : Color) :
    distanceLe (normalizeRgb a) (normalizeRgb b) 0 = true ↔
      a.r = b.r ∧ a.g = b.g ∧ a.b = b.b := by
  simp only [distanceLe, normalizeRgb, colorDistanceSqNum, Rat.num_ofNat,
    Rat.den_ofNat, decide_eq_true_eq]
  constructor
  · rintro ⟨-, h⟩
    norm_num at h
    have h1 : ((a.r : Int) - (b.r : Int)) ^ 2 = 0 := by nlinarith [sq_nonneg ((a.r : Int) - b.r), sq_nonneg ((a.g : Int) - b.g), sq_nonneg ((a.b : Int) - b.b)]
    have h2 : ((a.g : Int) - (b.g : Int)) ^ 2 = 0 := by nlinarith [sq_nonneg ((a.r : Int) - b.r), sq_nonneg ((a.g : Int) - b.g), sq_nonneg ((a.b : Int) - b.b)]
    have h3 : ((a.b : Int) - (b.b : Int)) ^ 2 = 0 := by nlinarith [sq_nonneg ((a.r : Int) - b.r), sq_nonneg ((a.g : Int) - b.g), sq_nonneg ((a.b : Int) - b.b)]
    rw [pow_eq_zero_iff (by norm_num)] at h1 h2 h3
    omega
  · rintro ⟨h1, h2, h3⟩
    rw [h1, h2, h3]
    simp

/-- C5 (counterexample): with tolerance 0, an opaque black pixel followed by
a fully transparent black pixel come out as two opaque black pixels — the
second color is changed even though it is not bit-identical to the first
(alpha differs), because `normalize_rgb` drops the alpha channel before the
distance comparison.  This refutes the claim that `merge_palette` with
tolerance 0 is the identity up to bit-identical duplicates. -/
theorem mergePalette_zero_counterexample :
    mergePalette [⟨0, 0, 0, 255⟩, ⟨0, 0, 0, 0⟩] 0 =
      [⟨0, 0, 0, 255⟩, ⟨0, 0, 0, 255⟩] ∧
    mergePalette [⟨0, 0, 0, 255⟩, ⟨0, 0, 0, 0⟩] 0 ≠
      [⟨0, 0, 0, 255⟩, ⟨0, 0, 0, 0⟩] := by decide

/-- Auxiliary invariant for C5: with tolerance 0 the merge loop maps every
color to itself provided no two colors of the original input share an RGB
triple without being equal. -/
theorem mergeGo_zero_id (colors : List Color)
    (h : ∀ a ∈ colors, ∀ b ∈ colors, a.r = b.r → a.g = b.g → a.b = b.b → a = b) :
    ∀ (rest : List Color) (palette : List ((Int × Int × Int) × Color)),
      (∀ e ∈ palette, e.2 ∈ colors ∧ e.1 = normalizeRgb e.2) →
      (∀ c ∈ rest, c ∈ colors) →
      mergeGo palette 0 rest = rest := by
  intro rest
  induction rest with
  | nil => intro _ _ _; rfl
  | cons c rest ih =>
    intro palette hpal hmem
    have hc : c ∈ colors := hmem c (List.mem_cons_self c rest)
    rcases hfind : List.find? (fun entry => distanceLe (normalizeRgb c) entry.1 0)
        palette with _ | entry
    · simp only [mergeGo, hfind]
      refine congrArg _ (ih (palette ++ [(normalizeRgb c, c)]) ?_ ?_)
      · intro e he
        rcases List.mem_append.mp he with he | he
        · exact hpal e he
        · rcases List.mem_singleton.mp he with rfl
          exact ⟨hc, rfl⟩
      · exact fun x hx => hmem x (List.mem_cons_of_mem c hx)
    · have hment := List.mem_of_find?_eq_some hfind
      have hp := List.find?_some hfind
      obtain ⟨hein, hnorm⟩ := hpal entry hment
      rw [hnorm] at hp
      rw [distanceLe_zero_iff] at hp
      have : entry.2 = c := h entry.2 hein c hc hp.1.symm hp.2.1.symm hp.2.2.symm
      simp only [mergeGo, hfind, this]
      exact congrArg _ (ih palette hpal (fun x hx => hmem x (List.mem_cons_of_mem c hx)))

/-- C5 (amended): `merge_palette` with tolerance 0 returns each color
unchanged unless an EARLIER color has the same R, G, B values (alpha is
ignored by `normalize_rgb`, so an RGB-equal color with different alpha is
replaced by the earlier representative): whenever no two input colors share
an RGB triple without being fully equal, the output equals the input
element-for-element. -/
theorem mergePalette_zero_identity (colors : List Color)
    (h : ∀ a ∈ colors, ∀ b ∈ colors, a.r = b.r → a.g = b.g → a.b = b.b → a = b) :
    mergePalette colors 0 = colors :=
  mergeGo_zero_id colors h colors [] (fun e he => absurd he (List.not_mem_nil e))
    (fun _ hc => hc)

/-- Witness for C5 (amended): two RGB-distinct colors pass through
unchanged, alpha included. -/
theorem mergePalette_zero_identity_witness :
    mergePalette [⟨1, 2, 3, 4⟩, ⟨9, 9, 9, 9⟩] 0 = [⟨1, 2, 3, 4⟩, ⟨9, 9, 9, 9⟩] :=
  mergePalette_zero_identity [⟨1, 2, 3, 4⟩, ⟨9, 9, 9, 9⟩] (by decide)

theorem getD_map_of_lt {α β : Type} (f : α → β) (l : List α) (i : Nat)
    (hi : i < l.length) (d : β) (d' : α) :
    (l.map f).getD i d = f (l.getD i d') := by
  rw [List.getD_eq_getElem?_getD, List.getElem?_map, List.getElem?_eq_getElem hi,
    List.getD_eq_getElem?_getD, List.getElem?_eq_getElem hi]
  rfl

/-- C10 (confirmed): `make_background_transparent` keeps the dimensions, the
R, G, B channels and all fully transparent pixels of its input; the only
change it can make to a pixel is to zero the alpha of a non-transparent
pixel that is color-close to the background (the source works on a copy of
the image, modelled by the purely functional `map`). -/
theorem makeBackgroundTransparent_frame (img : Img) (bg : Color) (threshold : Int)
    (out : Img) (hok : makeBackgroundTransparent img bg threshold = .ok out) :
    out.width = img.width ∧ out.height = img.height ∧
    out.data.length = img.data.length ∧
    ∀ i < img.data.length,
      ((out.data.getD i ⟨0, 0, 0, 0⟩).r = (img.data.getD i ⟨0, 0, 0, 0⟩).r ∧
       (out.data.getD i ⟨0, 0, 0, 0⟩).g = (img.data.getD i ⟨0, 0, 0, 0⟩).g ∧
       (out.data.getD i ⟨0, 0, 0, 0⟩).b = (img.data.getD i ⟨0, 0, 0, 0⟩).b) ∧
      ((img.data.getD i ⟨0, 0, 0, 0⟩).a = 0 →
        out.data.getD i ⟨0, 0, 0, 0⟩ = img.data.getD i ⟨0, 0, 0, 0⟩) ∧
      (out.data.getD i ⟨0, 0, 0, 0⟩ = img.data.getD i ⟨0, 0, 0, 0⟩ ∨
       (out.data.getD i ⟨0, 0, 0, 0⟩ =
          ⟨(img.data.getD i ⟨0, 0, 0, 0⟩).r, (img.data.getD i ⟨0, 0, 0, 0⟩).g,
           (img.data.getD i ⟨0, 0, 0, 0⟩).b, 0⟩ ∧
        (img.data.getD i ⟨0, 0, 0, 0⟩).a ≠ 0 ∧
        colorClose (img.data.getD i ⟨0, 0, 0, 0⟩) bg threshold = true)) := by
  by_cases hneg : threshold < 0
  · rw [makeBackgroundTransparent, if_pos hneg] at hok
    exact absurd hok (by simp)
  · rw [makeBackgroundTransparent, if_neg hneg] at hok
    have hout : out = { img with data := img.data.map (fun pixel =>
        if pixel.a = 0 then pixel
        else if colorClose pixel bg threshold then ⟨pixel.r, pixel.g, pixel.b, 0⟩
        else pixel) } := by
      cases hok
      rfl
    have hdata : out.data = img.data.map (fun pixel =>
        if pixel.a = 0 then pixel
        else if colorClose pixel bg threshold then ⟨pixel.r, pixel.g, pixel.b, 0⟩
        else pixel) := by rw [hout]
    have hwidth : out.width = img.width := by rw [hout]
    have hheight : out.height = img.height := by rw [hout]
    refine ⟨hwidth, hheight, by rw [hdata]; exact List.length_map _ _, fun i hi => ?_⟩
    rw [hdata, getD_map_of_lt _ img.data i hi (⟨0, 0, 0, 0⟩ : Color) (⟨0, 0, 0, 0⟩ : Color)]
    by_cases ha : (img.data.getD i ⟨0, 0, 0, 0⟩).a = 0
    · rw [if_pos ha]
      exact ⟨⟨rfl, rfl, rfl⟩, fun _ => rfl, Or.inl rfl⟩
    · rw [if_neg ha]
      by_cases hcl : colorClose (img.data.getD i ⟨0, 0, 0, 0⟩) bg threshold
      · rw [if_pos hcl]
        exact ⟨⟨rfl, rfl, rfl⟩, fun h => absurd h ha, Or.inr ⟨rfl, ha, hcl⟩⟩
      · rw [if_neg hcl]
        exact ⟨⟨rfl, rfl, rfl⟩, fun _ => rfl, Or.inl rfl⟩

/-- Witness for C10: a 1×1 opaque background-colored image has its alpha
zeroed, RGB preserved. -/
theorem makeBackgroundTransparent_frame_witness :
    (((Img.mk 1 1 [Color.mk 7 8 9 0]).data.getD 0 ⟨0, 0, 0, 0⟩).r =
       ((Img.mk 1 1 [Color.mk 7 8 9 255]).data.getD 0 ⟨0, 0, 0, 0⟩).r ∧
     ((Img.mk 1 1 [Color.mk 7 8 9 0]).data.getD 0 ⟨0, 0, 0, 0⟩).g =
       ((Img.mk 1 1 [Color.mk 7 8 9 255]).data.getD 0 ⟨0, 0, 0, 0⟩).g ∧
     ((Img.mk 1 1 [Color.mk 7 8 9 0]).data.getD 0 ⟨0, 0, 0, 0⟩).b =
       ((Img.mk 1 1 [Color.mk 7 8 9 255]).data.getD 0 ⟨0, 0, 0, 0⟩).b) ∧
    (((Img.mk 1 1 [Color.mk 7 8 9 255]).data.getD 0 ⟨0, 0, 0, 0⟩).a = 0 →
      (Img.mk 1 1 [Color.mk 7 8 9 0]).data.getD 0 ⟨0, 0, 0, 0⟩ =
        (Img.mk 1 1 [Color.mk 7 8 9 255]).data.getD 0 ⟨0, 0, 0, 0⟩) ∧
    ((Img.mk 1 1 [Color.mk 7 8 9 0]).data.getD 0 ⟨0, 0, 0, 0⟩ =
       (Img.mk 1 1 [Color.mk 7 8 9 255]).data.getD 0 ⟨0, 0, 0, 0⟩ ∨
     ((Img.mk 1 1 [Color.mk 7 8 9 0]).data.getD 0 ⟨0, 0, 0, 0⟩ =
        ⟨((Img.mk 1 1 [Color.mk 7 8 9 255]).data.getD 0 ⟨0, 0, 0, 0⟩).r,
         ((Img.mk 1 1 [Color.mk 7 8 9 255]).data.getD 0 ⟨0, 0, 0, 0⟩).g,
         ((Img.mk 1 1 [Color.mk 7 8 9 255]).data.getD 0 ⟨0, 0, 0, 0⟩).b, 0⟩ ∧
      ((Img.mk 1 1 [Color.mk 7 8 9 255]).data.getD 0 ⟨0, 0, 0, 0⟩).a ≠ 0 ∧
      colorClose ((Img.mk 1 1 [Color.mk 7 8 9 255]).data.getD 0 ⟨0, 0, 0, 0⟩)
        ⟨7, 8, 9, 255⟩ 3 = true)) :=
  (makeBackgroundTransparent_frame ⟨1, 1, [⟨7, 8, 9, 255⟩]⟩ ⟨7, 8, 9, 255⟩ 3
    ⟨1, 1, [⟨7, 8, 9, 0⟩]⟩ rfl).2.2.2 0 (by decide)

theorem grid_length {α : Type} (f : Nat → Nat → α) (n : Nat) :
    ∀ m : Nat,
      ((List.range m).flatMap (fun yi => (List.range n).map (f yi))).length = m * n := by
  intro m
  induction m with
  | zero => simp
  | succ m ih =>
    rw [List.range_succ, List.flatMap_append, List.length_append, ih]
    simp [Nat.succ_mul]

theorem grid_getD {α : Type} (f : Nat → Nat → α) (n : Nat) (d : α) :
    ∀ (m xi yi : Nat), xi < n → yi < m →
      ((List.range m).flatMap (fun yi => (List.range n).map (f yi))).getD
        (yi * n + xi) d = f yi xi := by
  intro m
  induction m with
  | zero => intro xi yi _ hy; exact absurd hy (Nat.not_lt_zero yi)
  | succ m ih =>
    intro xi yi hx hy
    rw [List.range_succ, List.flatMap_append]
    by_cases hym : yi < m
    · rw [List.getD_append _ _ _ _ ?_]
      · exact ih xi yi hx hym
      · rw [grid_length]
        have h1 : (yi + 1) * n ≤ m * n := Nat.mul_le_mul_right n hym
        have h2 : (yi + 1) * n = yi * n + n := Nat.succ_mul yi n
        linarith
    · have hyi : yi = m := by omega
      subst hyi
      rw [List.getD_append_right _ _ _ _ ?_]
      · rw [grid_length, Nat.add_sub_cancel_left]
        simp only [List.flatMap_cons, List.flatMap_nil, List.append_nil]
        rw [List.getD_eq_getElem?_getD, List.getElem?_map, List.getElem?_range hx]
        rfl
      · rw [grid_length]
        exact Nat.le_add_right _ _

/-- `sample_centers` written as a doubly indexed grid (pure unfolding). -/
theorem sampleCenters_eq_grid (img : Img) (region : BBox)
    (targetSize pixelSize : Int) :
    sampleCenters img region targetSize pixelSize =
      (List.range targetSize.toNat).flatMap (fun yIndex : Nat =>
        (List.range targetSize.toNat).map (fun xIndex : Nat =>
          img.pix
            (min (max (((2 * (xIndex : Int) + 1) * pixelSize).tdiv 2 + region.left) 0)
              ((img.width : Int) - 1))
            (min (max (((2 * (yIndex : Int) + 1) * pixelSize).tdiv 2 + region.top) 0)
              ((img.height : Int) - 1)))) := rfl

/-- C8 (confirmed): `sample_centers` returns a row-major list of exactly
`N*N` colors where the entry for cell `(xi, yi)` is the image pixel at
`(floor((xi+0.5)*P) + regionLeft, floor((yi+0.5)*P) + regionTop)`, each
coordinate clamped into the valid range (for `N = 1`, a single color at the
region's geometric center).  `floor((xi+0.5)*P)` is written
`(2*xi+1)*P / 2` with floor division, which agrees with the truncating
`int(...)` of the source because the dividend is non-negative. -/
theorem sampleCenters_rowMajor_centers (img : Img) (region : BBox)
    (targetSize pixelSize : Int) (hN : 1 ≤ targetSize) (hP : 1 ≤ pixelSize)
    (hw : 1 ≤ img.width) (hh : 1 ≤ img.height) :
    (sampleCenters img region targetSize pixelSize).length =
      targetSize.toNat * targetSize.toNat ∧
    ∀ xi yi : Nat, xi < targetSize.toNat → yi < targetSize.toNat →
      (sampleCenters img region targetSize pixelSize).getD
          (yi * targetSize.toNat + xi) ⟨0, 0, 0, 0⟩ =
        img.pix
          (min (max ((2 * (xi : Int) + 1) * pixelSize / 2 + region.left) 0)
             ((img.width : Int) - 1))
          (min (max ((2 * (yi : Int) + 1) * pixelSize / 2 + region.top) 0)
             ((img.height : Int) - 1)) := by
  have hdiv : ∀ i : Nat, ((2 * (i : Int) + 1) * pixelSize).tdiv 2 =
      (2 * (i : Int) + 1) * pixelSize / 2 := fun i =>
    Int.tdiv_eq_ediv (mul_nonneg (by positivity) (by omega)) (by norm_num)
  constructor
  · rw [sampleCenters_eq_grid]
    exact grid_length (fun yIndex xIndex => img.pix
      (min (max (((2 * (xIndex : Int) + 1) * pixelSize).tdiv 2 + region.left) 0)
        ((img.width : Int) - 1))
      (min (max (((2 * (yIndex : Int) + 1) * pixelSize).tdiv 2 + region.top) 0)
        ((img.height : Int) - 1))) targetSize.toNat targetSize.toNat
  · intro xi yi hx hy
    rw [sampleCenters_eq_grid]
    have hg := grid_getD (fun yIndex xIndex => img.pix
      (min (max (((2 * (xIndex : Int) + 1) * pixelSize).tdiv 2 + region.left) 0)
        ((img.width : Int) - 1))
      (min (max (((2 * (yIndex : Int) + 1) * pixelSize).tdiv 2 + region.top) 0)
        ((img.height : Int) - 1))) targetSize.toNat ⟨0, 0, 0, 0⟩ targetSize.toNat
      xi yi hx hy
    dsimp only at hg
    rw [hdiv xi, hdiv yi] at hg
    exact hg

/-- Witness for C8 on a 1×1 image with `N = P = 1`. -/
theorem sampleCenters_rowMajor_centers_witness :
    (sampleCenters ⟨1, 1, [⟨3, 4, 5, 255⟩]⟩ ⟨0, 0, 1, 1⟩ 1 1).length = 1 * 1 ∧
    (sampleCenters ⟨1, 1, [⟨3, 4, 5, 255⟩]⟩ ⟨0, 0, 1, 1⟩ 1 1).getD 0 ⟨0, 0, 0, 0⟩ =
      (Img.mk 1 1 [⟨3, 4, 5, 255⟩]).pix
        (min (max ((2 * (0 : Int) + 1) * 1 / 2 + 0) 0) ((1 : Int) - 1))
        (min (max ((2 * (0 : Int) + 1) * 1 / 2 + 0) 0) ((1 : Int) - 1)) :=
  ⟨(sampleCenters_rowMajor_centers ⟨1, 1, [⟨3, 4, 5, 255⟩]⟩ ⟨0, 0, 1, 1⟩ 1 1
      (by decide) (by decide) (by decide) (by decide)).1,
   (sampleCenters_rowMajor_centers ⟨1, 1, [⟨3, 4, 5, 255⟩]⟩ ⟨0, 0, 1, 1⟩ 1 1
      (by decide) (by decide) (by decide) (by decide)).2 0 0 (by decide) (by decide)⟩

example : expandToSquare ⟨0, 0, 4, 10⟩ (4, 10) = ⟨0, 0, 10, 10⟩ := by decide

example :
    alignSampleRegion ⟨0, 0, 1, 1⟩ 2 (2, 2) 1 = .ok (⟨0, 0, 2, 2⟩, 1) := rfl

example : pickDominant (filterRuns [4, 6] 5) 5 = 4 := by decide

example : mergePalette [⟨0, 0, 0, 255⟩, ⟨0, 0, 0, 0⟩] 0 =
    [⟨0, 0, 0, 255⟩, ⟨0, 0, 0, 255⟩] := by decide

example : mergePalette [⟨0, 0, 0, 255⟩, ⟨255, 255, 255, 255⟩] 1 =
    [⟨0, 0, 0, 255⟩, ⟨255, 255, 255, 255⟩] := by decide

example : mergePalette [⟨0, 0, 0, 255⟩, ⟨255, 255, 255, 255⟩] 2 =
    [⟨0, 0, 0, 255⟩, ⟨0, 0, 0, 255⟩] := by decide

example : detectBackgroundColor ⟨2, 2,
    [⟨0, 0, 0, 255⟩, ⟨255, 255, 255, 255⟩, ⟨255, 255, 255, 255⟩, ⟨255, 255, 255, 255⟩]⟩ =
    ⟨255, 255, 255, 255⟩ := by decide

example : downscalePure ⟨2, 2,
    [⟨0, 0, 0, 255⟩, ⟨255, 255, 255, 255⟩, ⟨255, 255, 255, 255⟩, ⟨255, 255, 255, 255⟩]⟩
    2 1 none 24 =
    .ok [⟨0, 0, 0, 255⟩, ⟨255, 255, 255, 0⟩, ⟨255, 255, 255, 0⟩, ⟨255, 255, 255, 0⟩] := rfl

example : downscalePure ⟨1, 1, [⟨5, 6, 7, 200⟩]⟩ 1 1 none 24 =
    .ok [⟨5, 6, 7, 200⟩] := rfl

theorem foldr_min_le_mem (l : List Nat) (init a : Nat) (ha : a ∈ l) :
    l.foldr min init ≤ a := by
  induction l with
  | nil => exact absurd ha (List.not_mem_nil a)
  | cons b l ih =>
    rcases List.mem_cons.mp ha with rfl | ha
    · exact min_le_left _ _
    · exact le_trans (min_le_right _ _) (ih ha)

theorem alphaBbox_nonneg (img : Img) (b : BBox) (h : alphaBbox img = some b) :
    0 ≤ b.left ∧ 0 ≤ b.top := by
  unfold alphaBbox at h
  rcases hpts : alphaPoints img with _ | ⟨p, rest⟩
  · rw [hpts] at h
    exact absurd h (by simp)
  · rw [hpts] at h
    simp only [Option.some.injEq] at h
    subst h
    exact ⟨Int.natCast_nonneg _, Int.natCast_nonneg _⟩

/-- When the image has a pixel with alpha below 255, a successful
`detect_content_bbox` goes through the alpha-aware branch and returns a
bounding box anchored at non-negative coordinates. -/
theorem detectContentBbox_alpha_nonneg (img : Img) (threshold : Int) (bbox : BBox)
    (htr : ∃ c ∈ img.data, c.a < 255)
    (hok : detectContentBbox img threshold = .ok bbox) :
    0 ≤ bbox.left ∧ 0 ≤ bbox.top := by
  obtain ⟨c, hc, hca⟩ := htr
  have hmin : (img.data.map (fun p => p.a)).foldr min 255 ≤ c.a :=
    foldr_min_le_mem _ 255 c.a (List.mem_map_of_mem _ hc)
  simp only [detectContentBbox] at hok
  rw [if_neg] at hok
  · rw [if_pos (by omega)] at hok
    rcases halpha : alphaBbox img with _ | b
    · rw [halpha] at hok
      exact absurd hok (by simp)
    · rw [halpha] at hok
      simp only [Except.ok.injEq] at hok
      subst hok
      exact alphaBbox_nonneg img b halpha
  · intro hmax
    rw [if_pos hmax] at hok
    exact absurd hok (by simp)

theorem expandToSquare_nonneg (b : BBox) (W H : Int)
    (hl : 0 ≤ b.left) (ht : 0 ≤ b.top) :
    0 ≤ (expandToSquare b (W, H)).left ∧ 0 ≤ (expandToSquare b (W, H)).top := by
  simp only [expandToSquare]
  split_ifs <;> simp_all <;> omega

/-- Eliminating a successful `align_sample_region`. -/
theorem alignSampleRegion_ok_elim (square : BBox) (targetSize W H pixelSize : Int)
    (region : BBox) (outP : Int)
    (h : alignSampleRegion square targetSize (W, H) pixelSize = .ok (region, outP)) :
    outP = pixelSize ∧
    region = ⟨square.left, square.top, square.left + pixelSize * targetSize,
              square.top + pixelSize * targetSize⟩ ∧
    square.left + pixelSize * targetSize ≤ W ∧
    square.top + pixelSize * targetSize ≤ H := by
  simp only [alignSampleRegion] at h
  split_ifs at h with h1 h2 h3
  all_goals
    first
      | exact Except.noConfusion h
      | (rw [Except.ok.injEq, Prod.mk.injEq] at h
         exact ⟨h.2.symm, h.1.symm, by omega, by omega⟩)

/-- The clamped center coordinate with pixel size 1 and a zero anchor is
the cell index itself. -/
theorem clamp_center_eq (n xi : Nat) (hxi : xi < n) :
    min (max (((2 * (xi : Int) + 1) * 1).tdiv 2 + 0) 0) ((n : Int) - 1) = (xi : Int) := by
  rw [Int.tdiv_eq_ediv (by positivity) (by norm_num)]
  have h1 : ((xi : Nat) : Int) < (n : Int) := by exact_mod_cast hxi
  omega

/-- With pixel size 1, target size equal to the image side and a region
anchored at the origin, center sampling is the identity on the pixel
data. -/
theorem sampleCenters_identity (img : Img) (n : Nat) (region : BBox)
    (hrl : region.left = 0) (hrt : region.top = 0)
    (hw : img.width = n) (hh : img.height = n) (hlen : img.data.length = n * n) :
    sampleCenters img region (n : Int) 1 = img.data := by
  have hlen2 : (sampleCenters img region (n : Int) 1).length = n * n := by
    rw [sampleCenters_eq_grid]
    have hgl := grid_length (fun yIndex xIndex : Nat => img.pix
      (min (max (((2 * (xIndex : Int) + 1) * 1).tdiv 2 + region.left) 0)
        ((img.width : Int) - 1))
      (min (max (((2 * (yIndex : Int) + 1) * 1).tdiv 2 + region.top) 0)
        ((img.height : Int) - 1))) ((n : Int)).toNat ((n : Int)).toNat
    rw [hgl, Int.toNat_natCast]
  apply List.ext_getElem (by rw [hlen2, hlen])
  intro i h1 h2
  have h1' : i < n * n := hlen2 ▸ h1
  have hn : 0 < n := by
    rcases Nat.eq_zero_or_pos n with rfl | hn
    · exact absurd h1' (by omega)
    · exact hn
  have hx : i % n < n := Nat.mod_lt i hn
  have hy : i / n < n := (Nat.div_lt_iff_lt_mul hn).mpr h1'
  have hidx : i / n * n + i % n = i := by
    have hdm := Nat.div_add_mod i n
    calc i / n * n + i % n = n * (i / n) + i % n := by rw [Nat.mul_comm]
      _ = i := hdm
  have hgd := grid_getD (fun yIndex xIndex : Nat => img.pix
      (min (max (((2 * (xIndex : Int) + 1) * 1).tdiv 2 + region.left) 0)
        ((img.width : Int) - 1))
      (min (max (((2 * (yIndex : Int) + 1) * 1).tdiv 2 + region.top) 0)
        ((img.height : Int) - 1))) ((n : Int)).toNat (⟨0, 0, 0, 0⟩ : Color)
      ((n : Int)).toNat (i % n) (i / n)
      (by rw [Int.toNat_natCast]; exact hx) (by rw [Int.toNat_natCast]; exact hy)
  dsimp only at hgd
  have hcx : min (max (((2 * ((i % n : Nat) : Int) + 1) * 1).tdiv 2 + region.left) 0)
      ((img.width : Int) - 1) = ((i % n : Nat) : Int) := by
    rw [hrl, hw]
    exact clamp_center_eq n (i % n) hx
  have hcy : min (max (((2 * ((i / n : Nat) : Int) + 1) * 1).tdiv 2 + region.top) 0)
      ((img.height : Int) - 1) = ((i / n : Nat) : Int) := by
    rw [hrt, hh]
    exact clamp_center_eq n (i / n) hy
  rw [hcx, hcy] at hgd
  have hpix : img.pix ((i % n : Nat) : Int) ((i / n : Nat) : Int) =
      img.data.getD i ⟨0, 0, 0, 0⟩ := by
    rw [Img.pix, if_pos]
    · rw [Int.toNat_natCast, Int.toNat_natCast, hw, hidx]
    · refine ⟨Int.natCast_nonneg _, ?_, Int.natCast_nonneg _, ?_⟩
      · rw [hw]; exact_mod_cast hx
      · rw [hh]; exact_mod_cast hy
  rw [hpix] at hgd
  have hidx2 : i / n * ((n : Int)).toNat + i % n = i := by
    rw [Int.toNat_natCast]
    exact hidx
  rw [hidx2] at hgd
  calc (sampleCenters img region (n : Int) 1)[i] =
      (sampleCenters img region (n : Int) 1).getD i ⟨0, 0, 0, 0⟩ := by
        rw [List.getD_eq_getElem?_getD, List.getElem?_eq_getElem h1]
        rfl
    _ = img.data.getD i ⟨0, 0, 0, 0⟩ := by
        rw [sampleCenters_eq_grid]
        exact hgd
    _ = img.data[i] := by
        rw [List.getD_eq_getElem?_getD, List.getElem?_eq_getElem h2]
        rfl

/-- C3 (counterexample): a fully opaque 2×2 image (one black pixel, three
white) survives the pipeline with `targetSize = 2`, `pixelSize = 1`,
`tolerance = None`, but the output is NOT the input: the detected white
background is made transparent in the output, so the round-trip changes the
alpha channel of the three white pixels. -/
theorem downscale_roundtrip_counterexample :
    downscalePure ⟨2, 2, [⟨0, 0, 0, 255⟩, ⟨255, 255, 255, 255⟩,
        ⟨255, 255, 255, 255⟩, ⟨255, 255, 255, 255⟩]⟩ 2 1 none 24 =
      .ok [⟨0, 0, 0, 255⟩, ⟨255, 255, 255, 0⟩, ⟨255, 255, 255, 0⟩,
           ⟨255, 255, 255, 0⟩] ∧
    ([⟨0, 0, 0, 255⟩, ⟨255, 255, 255, 0⟩, ⟨255, 255, 255, 0⟩,
      ⟨255, 255, 255, 0⟩] : List Color) ≠
      [⟨0, 0, 0, 255⟩, ⟨255, 255, 255, 255⟩, ⟨255, 255, 255, 255⟩,
       ⟨255, 255, 255, 255⟩] :=
  ⟨rfl, by decide⟩

/-- C3 (amended): the round-trip holds for inputs that are not fully
opaque: for every N×N input with some pixel of alpha < 255 on which the
pipeline does not abort, `downscale` with `targetSize = N`, `pixelSize = 1`
and `tolerance = None` produces an output equal to the input
pixel-for-pixel.  (For fully opaque inputs the pipeline additionally zeroes
the alpha of pixels color-close to the detected background color, so the
round-trip can change the image — see the counterexample.) -/
theorem downscale_roundtrip_transparent (img : Img) (n : Nat) (threshold : Int)
    (out : List Color) (hw : img.width = n) (hh : img.height = n)
    (hlen : img.data.length = n * n) (htr : ∃ c ∈ img.data, c.a < 255)
    (hok : downscalePure img (n : Int) 1 none threshold = .ok out) :
    out = img.data := by
  obtain ⟨c, hc, hca⟩ := htr
  have hmin : (img.data.map (fun p => p.a)).foldr min 255 ≤ c.a :=
    foldr_min_le_mem _ 255 c.a (List.mem_map_of_mem _ hc)
  simp only [downscalePure] at hok
  rw [if_neg (by omega)] at hok
  rcases hbb : detectContentBbox img threshold with e | bbox
  · rw [hbb] at hok
    exact absurd hok (by simp)
  · rw [hbb] at hok
    dsimp only at hok
    have hbl := detectContentBbox_alpha_nonneg img threshold bbox ⟨c, hc, hca⟩ hbb
    have hsq := expandToSquare_nonneg bbox ((img.width : Int)) ((img.height : Int))
      hbl.1 hbl.2
    rcases halign : alignSampleRegion
        (expandToSquare bbox ((img.width : Int), (img.height : Int)))
        ((n : Int)) ((img.width : Int), (img.height : Int)) 1 with e | rp
    · rw [halign] at hok
      exact absurd hok (by simp)
    · obtain ⟨region, outP⟩ := rp
      rw [halign] at hok
      obtain ⟨hP, hreg, hleft, htop⟩ :=
        alignSampleRegion_ok_elim _ _ _ _ _ _ _ halign
      simp only [Except.ok.injEq] at hok
      subst hok
      subst hP
      have hwi : (img.width : Int) = (n : Int) := by exact_mod_cast congrArg Nat.cast hw
      have hhi : (img.height : Int) = (n : Int) := by exact_mod_cast congrArg Nat.cast hh
      have hL : (expandToSquare bbox ((img.width : Int), (img.height : Int))).left = 0 := by
        omega
      have hT : (expandToSquare bbox ((img.width : Int), (img.height : Int))).top = 0 := by
        omega
      exact sampleCenters_identity img n region (by rw [hreg]; exact hL)
        (by rw [hreg]; exact hT) hw hh hlen

/-- Witness for C3 (amended) on a 1×1 translucent image. -/
theorem downscale_roundtrip_transparent_witness :
    ([⟨5, 6, 7, 200⟩] : List Color) = (Img.mk 1 1 [⟨5, 6, 7, 200⟩]).data :=
  downscale_roundtrip_transparent ⟨1, 1, [⟨5, 6, 7, 200⟩]⟩ 1 24 [⟨5, 6, 7, 200⟩]
    rfl rfl rfl ⟨⟨5, 6, 7, 200⟩, by decide, by decide⟩ rfl

/-! ## C9: the background-color estimator against the specification's words -/

/-- Spec-side median of one channel list: sort, then take the middle value,
or the (floor) average of the two middle values when the count is even. -/
def channelMedian (l : List Nat) : Nat :=
  let s := List.insertionSort (· ≤ ·) l
  if l.length % 2 = 0 then (s.getD (l.length / 2 - 1) 0 + s.getD (l.length / 2) 0) / 2
  else s.getD (l.length / 2) 0

/-- Spec-side border pixels: top row, bottom row, left column, right
column (a different enumeration order of the same multiset as the
source's interleaved collection). -/
def borderCandidatesSpec (img : Img) : List Color :=
  (((List.range img.width).map (fun x : Nat => img.pix (Int.ofNat x) 0)) ++
   ((List.range img.width).map (fun x : Nat =>
      img.pix (Int.ofNat x) ((img.height : Int) - 1)))) ++
  (((List.range img.height).map (fun y : Nat => img.pix 0 (Int.ofNat y))) ++
   ((List.range img.height).map (fun y : Nat =>
      img.pix ((img.width : Int) - 1) (Int.ofNat y))))

/-- Spec-side color median: per-channel median with alpha 255, transparent
black for an empty candidate set. -/
def medianColorSpec (cands : List Color) : Color :=
  if cands.isEmpty then ⟨0, 0, 0, 0⟩
  else ⟨channelMedian (cands.map (·.r)), channelMedian (cands.map (·.g)),
        channelMedian (cands.map (·.b)), 255⟩

/-- Written from the claim's words: restrict to border pixels of alpha ≥ 250
whenever any such pixel exists, then take the per-channel median with alpha
set to 255; transparent black when there are no border pixels. -/
def detectBackgroundColorSpec (img : Img) : Color :=
  let border := borderCandidatesSpec img
  if border.any (fun c => 250 ≤ c.a) then
    medianColorSpec (border.filter (fun c => 250 ≤ c.a))
  else medianColorSpec border

/-- Sorting is invariant under permutation of the input. -/
theorem insertionSort_eq_of_perm {l1 l2 : List Nat} (h : l1.Perm l2) :
    List.insertionSort (· ≤ ·) l1 = List.insertionSort (· ≤ ·) l2 :=
  List.eq_of_perm_of_sorted
    ((List.perm_insertionSort _ l1).trans (h.trans (List.perm_insertionSort _ l2).symm))
    (List.sorted_insertionSort _ l1) (List.sorted_insertionSort _ l2)

/-- Interleaved pair collection is a permutation of the two separate
passes. -/
theorem pairFlatMap_perm {α β : Type} (l : List α) (f g : α → β) :
    (l.flatMap (fun x => [f x, g x])).Perm (l.map f ++ l.map g) := by
  induction l with
  | nil => exact List.Perm.refl _
  | cons a l ih =>
    simp only [List.flatMap_cons, List.map_cons, List.cons_append, List.nil_append]
    exact List.Perm.cons (f a) ((List.Perm.cons (g a) ih).trans List.perm_middle.symm)

theorem borderCandidates_perm (img : Img) :
    (borderCandidates img).Perm (borderCandidatesSpec img) :=
  List.Perm.append (pairFlatMap_perm _ _ _) (pairFlatMap_perm _ _ _)

theorem perm_isEmpty_eq {α : Type} {l1 l2 : List α} (h : l1.Perm l2) :
    l1.isEmpty = l2.isEmpty := by
  rcases l1 with _ | ⟨a, l1⟩
  · rw [h.symm.eq_nil.symm]
  · rcases l2 with _ | ⟨b, l2⟩
    · exact absurd h.eq_nil (by simp)
    · rfl

/-- The source's inline median block computes the specification's
per-channel median on any permutation of the candidates. -/
theorem medianColor_of_perm (c1 c2 : List Color) (h : c1.Perm c2) :
    medianColor c1 = medianColorSpec c2 := by
  simp only [medianColor, medianColorSpec, channelMedian]
  rw [perm_isEmpty_eq h]
  by_cases h2 : c2.isEmpty
  · rw [if_pos h2, if_pos h2]
  · rw [if_neg h2, if_neg h2]
    have hr := insertionSort_eq_of_perm (h.map (fun c => c.r))
    have hg := insertionSort_eq_of_perm (h.map (fun c => c.g))
    have hb := insertionSort_eq_of_perm (h.map (fun c => c.b))
    rw [hr, hg, hb, h.length_eq]
    simp only [List.length_map]
    split_ifs <;> rfl

/-- C9 (confirmed): `detect_background_color` restricts the candidate set to
border pixels with alpha ≥ 250 whenever any such pixel exists, and returns
the per-channel median (floor average of the two middle values when the
count is even) of the candidates' R, G, B with alpha set to 255; for a
0-size image with no border pixels it returns transparent black — stated as
agreement with `detectBackgroundColorSpec`, written from the claim's words
with an independent border enumeration order. -/
theorem detectBackgroundColor_median_spec (img : Img) :
    detectBackgroundColor img = detectBackgroundColorSpec img ∧
    (img.width = 0 → img.height = 0 → detectBackgroundColor img = ⟨0, 0, 0, 0⟩) := by
  constructor
  · have hperm := borderCandidates_perm img
    have hfperm : ((borderCandidates img).filter (fun c => decide (250 ≤ c.a))).Perm
        ((borderCandidatesSpec img).filter (fun c => decide (250 ≤ c.a))) :=
      hperm.filter _
    simp only [detectBackgroundColor, detectBackgroundColorSpec]
    by_cases hO : ((borderCandidates img).filter (fun c => decide (250 ≤ c.a))).isEmpty
    · rw [if_pos hO]
      have hO2 : ((borderCandidatesSpec img).filter (fun c => decide (250 ≤ c.a))) = [] :=
        (hfperm.symm.trans (List.isEmpty_iff.mp hO ▸ List.Perm.refl _)).eq_nil
      have hany : (borderCandidatesSpec img).any (fun c => decide (250 ≤ c.a)) = false := by
        rw [List.any_eq_false]
        intro x hx
        exact List.filter_eq_nil_iff.mp hO2 x hx
      rw [hany]
      simp only [Bool.false_eq_true, if_false]
      exact medianColor_of_perm _ _ hperm
    · rw [if_neg hO]
      have hO1 : ((borderCandidates img).filter (fun c => decide (250 ≤ c.a))) ≠ [] := by
        intro hnil
        exact hO (by rw [hnil]; rfl)
      have hany : (borderCandidatesSpec img).any (fun c => decide (250 ≤ c.a)) = true := by
        rw [List.any_eq_true]
        rcases hcons : (borderCandidates img).filter (fun c => decide (250 ≤ c.a)) with _ | ⟨c, cs⟩
        · exact absurd hcons hO1
        · have hcmem : c ∈ (borderCandidates img).filter (fun c => decide (250 ≤ c.a)) := by
            rw [hcons]; exact List.mem_cons_self c cs
          refine ⟨c, ?_, (List.mem_filter.mp hcmem).2⟩
          exact hperm.mem_iff.mp (List.mem_filter.mp hcmem).1
      rw [hany]
      simp only [if_true]
      exact medianColor_of_perm _ _ hfperm
  · intro hw0 hh0
    simp [detectBackgroundColor, borderCandidates, medianColor, hw0, hh0]

/-- Witness for C9: the two formulations agree on a concrete 2×2 image, and
the 0×0 image yields transparent black. -/
theorem detectBackgroundColor_median_spec_witness :
    detectBackgroundColor ⟨2, 2, [⟨0, 0, 0, 255⟩, ⟨255, 255, 255, 255⟩,
        ⟨255, 255, 255, 255⟩, ⟨255, 255, 255, 255⟩]⟩ =
      detectBackgroundColorSpec ⟨2, 2, [⟨0, 0, 0, 255⟩, ⟨255, 255, 255, 255⟩,
        ⟨255, 255, 255, 255⟩, ⟨255, 255, 255, 255⟩]⟩ ∧
    detectBackgroundColor ⟨0, 0, []⟩ = ⟨0, 0, 0, 0⟩ :=
  ⟨(detectBackgroundColor_median_spec ⟨2, 2, [⟨0, 0, 0, 255⟩, ⟨255, 255, 255, 255⟩,
      ⟨255, 255, 255, 255⟩, ⟨255, 255, 255, 255⟩]⟩).1,
   (detectBackgroundColor_median_spec ⟨0, 0, []⟩).2 rfl rfl⟩

/-- Fidelity of the exact comparison: `distanceLe` decides precisely the
real-number condition `sqrt((ar/255 - br/255)² + (ag/255 - bg/255)² +
(ab/255 - bb/255)²) ≤ t` evaluated by `color_distance` and `merge_palette`
(Python floats compute this exactly on 8-bit inputs). -/
theorem distanceLe_iff_sqrt_le (a b : Color) (t : ℚ) :
    distanceLe (normalizeRgb a) (normalizeRgb b) t = true ↔
      Real.sqrt (((a.r : ℝ) / 255 - (b.r : ℝ) / 255) ^ 2 +
        ((a.g : ℝ) / 255 - (b.g : ℝ) / 255) ^ 2 +
        ((a.b : ℝ) / 255 - (b.b : ℝ) / 255) ^ 2) ≤ (t : ℝ) := by
  rw [Real.sqrt_le_iff]
  simp only [distanceLe, decide_eq_true_eq]
  have hdensq : (0 : ℝ) < ((t.den : ℕ) : ℝ) ^ 2 := by
    have hd : (0 : ℝ) < ((t.den : ℕ) : ℝ) := by exact_mod_cast t.den_pos
    positivity
  have hD : ((a.r : ℝ) / 255 - (b.r : ℝ) / 255) ^ 2 +
      ((a.g : ℝ) / 255 - (b.g : ℝ) / 255) ^ 2 +
      ((a.b : ℝ) / 255 - (b.b : ℝ) / 255) ^ 2 =
      ((colorDistanceSqNum (normalizeRgb a) (normalizeRgb b) : Int) : ℝ) / 255 ^ 2 := by
    simp only [colorDistanceSqNum, normalizeRgb]
    push_cast
    ring
  have hT : ((t : ℝ)) ^ 2 = ((t.num : Int) : ℝ) ^ 2 / ((t.den : ℕ) : ℝ) ^ 2 := by
    rw [Rat.cast_def, div_pow]
  rw [hD, hT, div_le_div_iff (by norm_num) hdensq]
  constructor
  · rintro ⟨h0, h⟩
    refine ⟨?_, by exact_mod_cast h⟩
    rw [← Rat.cast_zero, Rat.cast_le]
    exact Rat.num_nonneg.mp h0
  · rintro ⟨h0, h⟩
    refine ⟨?_, by exact_mod_cast h⟩
    rw [Rat.num_nonneg]
    rw [← Rat.cast_zero, Rat.cast_le] at h0
    exact h0
